/-
Verification of the indicator computation in the gold-dashboard repository.

The repository consists of two near-duplicate scripts:
  * gold_dashboard.py            (RSI smoothing: pandas ewm(span=14), adjust=True)
  * gold_dashboard_streamlit.py  (RSI smoothing: pandas rolling(14).mean())

The numeric pipeline is embedded shallowly: prices are exact rationals (ℚ),
an "undefined" (NaN) entry of a pandas Series is `Option.none`, and the
pandas primitives used by the scripts (diff, clip, where, rolling(w).mean
with its default min_periods = w, ewm(span).mean with its defaults
adjust=True / ignore_na=False, and IEEE division where x/0 = ±inf for
x ≠ 0 and 0/0 = NaN) are translated positionally.
-/
import Mathlib

/-- One OHLCV sample, as fetched by yfinance (the field `opn` embeds the
"Open" column; `open` is a Lean keyword). -/
structure Bar where
  opn : ℚ
  high : ℚ
  low : ℚ
  close : ℚ
  volume : ℚ
deriving DecidableEq

/-- Failure taxonomy of the spec (§7).  `emptyInput` embeds the
`df.empty → st.error(...); st.stop()` path of both scripts. -/
inductive Err where
  | emptyInput
  | invalidParameter
deriving DecidableEq

/-- The Series augmented with the three indicator columns (spec §3).
An entry `none` of an indicator column is an undefined (NaN) position. -/
structure IndicatorFrame where
  bars : List Bar
  smaFast : List (Option ℚ)
  smaSlow : List (Option ℚ)
  rsi : List (Option ℚ)
deriving DecidableEq

/-- Embeds `Close.diff()`: positional difference, NaN at index 0. -/
def diffs (closes : List ℚ) : List (Option ℚ) :=
  (List.range closes.length).map fun i =>
    if i = 0 then none else some (closes.getD i 0 - closes.getD (i - 1) 0)

/-- gold_dashboard.py line 48, `gain = delta.clip(lower=0)`: clip keeps NaN. -/
def gain_gd (closes : List ℚ) : List (Option ℚ) :=
  (diffs closes).map (Option.map fun d => max d 0)

/-- gold_dashboard.py line 49, `loss = -delta.clip(upper=0)`: clip keeps NaN. -/
def loss_gd (closes : List ℚ) : List (Option ℚ) :=
  (diffs closes).map (Option.map fun d => max (-d) 0)

/-- gold_dashboard_streamlit.py line 78, `gain = delta.where(delta > 0, 0)`:
a NaN delta fails the condition, so the NaN at index 0 becomes 0. -/
def gain_st (closes : List ℚ) : List ℚ :=
  (diffs closes).map fun o =>
    match o with
    | none => 0
    | some d => if 0 < d then d else 0

/-- gold_dashboard_streamlit.py line 79, `loss = -delta.where(delta < 0, 0)`:
keep the delta where it is negative, else 0, then negate; NaN becomes 0. -/
def loss_st (closes : List ℚ) : List ℚ :=
  (diffs closes).map fun o =>
    match o with
    | none => 0
    | some d => -(if d < 0 then d else 0)

/-- Embeds `Series.rolling(w).mean()` on a NaN-free series: with the default
min_periods = w the value at i is defined only once w observations are
available and is then the arithmetic mean of the trailing window. -/
def rollingMean (w : ℕ) (xs : List ℚ) : List (Option ℚ) :=
  (List.range xs.length).map fun i =>
    if w ≤ i + 1 then some ((((xs.drop (i + 1 - w)).take w)).sum / (w : ℚ))
    else none

/-- Embeds `Series.rolling(w).mean()` on a series that may contain NaN: any
NaN inside the trailing window makes the non-NaN count fall below
min_periods = w, so the output is NaN there. -/
def rollingMeanO (w : ℕ) (xs : List (Option ℚ)) : List (Option ℚ) :=
  (List.range xs.length).map fun i =>
    if w ≤ i + 1 then
      if ((xs.drop (i + 1 - w)).take w).all Option.isSome then
        some ((((xs.drop (i + 1 - w)).take w).map (fun o => o.getD 0)).sum / (w : ℚ))
      else none
    else none

/-- One step of pandas `ewm(alpha=a, adjust=True, ignore_na=False).mean()`:
the weighted numerator and the weight total both decay by (1 - a) at every
bar; a valid observation contributes with weight 1. -/
def ewmStep (a : ℚ) (s : ℚ × ℚ) : Option ℚ → ℚ × ℚ
  | none => ((1 - a) * s.1, (1 - a) * s.2)
  | some x => ((1 - a) * s.1 + x, (1 - a) * s.2 + 1)

/-- Accumulated (numerator, weight) state after a whole list of observations. -/
def ewmState (a : ℚ) (s : ℚ × ℚ) (xs : List (Option ℚ)) : ℚ × ℚ :=
  xs.foldl (ewmStep a) s

/-- Output of the exponentially weighted mean at one position: NaN while no
valid observation has been seen (weight total 0), else numerator / weights. -/
def ewmOut (s : ℚ × ℚ) : Option ℚ :=
  if s.2 = 0 then none else some (s.1 / s.2)

/-- Scan producing the running exponentially weighted mean. -/
def ewmAux (a : ℚ) (s : ℚ × ℚ) : List (Option ℚ) → List (Option ℚ)
  | [] => []
  | x :: xs => ewmOut (ewmStep a s x) :: ewmAux a (ewmStep a s x) xs

/-- Embeds `Series.ewm(span=s).mean()` with the pandas defaults
adjust=True and ignore_na=False, where alpha = 2 / (span + 1). -/
def ewmMean (a : ℚ) (xs : List (Option ℚ)) : List (Option ℚ) :=
  ewmAux a (0, 0) xs

/-- Embeds `rs = avg_gain / avg_loss` followed by `RSI = 100 - 100/(1+rs)`
under IEEE float semantics: a positive (or negative) average gain divided by
a zero average loss is ±inf and the RSI expression then evaluates to 100,
while 0/0 is NaN and propagates; the second guard marks the case
1 + rs = 0 (RSI would be -inf, impossible for nonnegative inputs) as
non-finite. -/
def rsiVal (g l : Option ℚ) : Option ℚ :=
  match g, l with
  | some g, some l =>
    if l = 0 then (if g = 0 then none else some 100)
    else if 1 + g / l = 0 then none
    else some (100 - 100 / (1 + g / l))
  | _, _ => none

/-- gold_dashboard.py line 50 generalized over the span: avg_gain with
exponential smoothing, alpha = 2 / (p + 1). -/
def avg_gain_ewm (p : ℕ) (closes : List ℚ) : List (Option ℚ) :=
  ewmMean (2 / ((p : ℚ) + 1)) (gain_gd closes)

/-- gold_dashboard.py line 51 generalized over the span. -/
def avg_loss_ewm (p : ℕ) (closes : List ℚ) : List (Option ℚ) :=
  ewmMean (2 / ((p : ℚ) + 1)) (loss_gd closes)

/-- gold_dashboard.py lines 52-53 generalized over the span: the RSI column. -/
def RSI_ewm (p : ℕ) (closes : List ℚ) : List (Option ℚ) :=
  List.zipWith rsiVal (avg_gain_ewm p closes) (avg_loss_ewm p closes)

/-- gold_dashboard_streamlit.py line 80 generalized over the lookback. -/
def avg_gain_roll (p : ℕ) (closes : List ℚ) : List (Option ℚ) :=
  rollingMean p (gain_st closes)

/-- gold_dashboard_streamlit.py line 81 generalized over the lookback. -/
def avg_loss_roll (p : ℕ) (closes : List ℚ) : List (Option ℚ) :=
  rollingMean p (loss_st closes)

/-- gold_dashboard_streamlit.py lines 82-83 generalized over the lookback. -/
def RSI_roll (p : ℕ) (closes : List ℚ) : List (Option ℚ) :=
  List.zipWith rsiVal (avg_gain_roll p closes) (avg_loss_roll p closes)

/-- The RSI column of gold_dashboard.py (span 14, alpha 2/15). -/
def RSI_gd (closes : List ℚ) : List (Option ℚ) := RSI_ewm 14 closes

/-- The RSI column of gold_dashboard_streamlit.py (lookback 14). -/
def RSI_st (closes : List ℚ) : List (Option ℚ) := RSI_roll 14 closes

/-- get_data of gold_dashboard.py, lines 36-55: on an empty fetch the script
reports an error and stops before any indicator arithmetic; otherwise the
frame gains the columns SMA_20, SMA_50 and RSI. -/
def get_data (bars : List Bar) : Except Err IndicatorFrame :=
  if bars.isEmpty then Except.error Err.emptyInput
  else
    Except.ok
      { bars := bars
        smaFast := rollingMean 20 (bars.map Bar.close)
        smaSlow := rollingMean 50 (bars.map Bar.close)
        rsi := RSI_gd (bars.map Bar.close) }

/-- The module-level pipeline of gold_dashboard_streamlit.py, lines 68-83:
an empty fetch stops the script (lines 70-72) before the indicator block. -/
def build_frame_st (bars : List Bar) : Except Err IndicatorFrame :=
  if bars.isEmpty then Except.error Err.emptyInput
  else
    Except.ok
      { bars := bars
        smaFast := rollingMean 20 (bars.map Bar.close)
        smaSlow := rollingMean 50 (bars.map Bar.close)
        rsi := RSI_st (bars.map Bar.close) }

/-- The smoothing-rule selector of the spec (§6): each value names the
convention hardcoded by one of the two scripts. -/
inductive Rule where
  | SIMPLE
  | EXPONENTIAL
deriving DecidableEq

/-- The smoothing operator selected by the rule, applied to one series of
(possibly NaN) observations. -/
def smooth : Rule → ℕ → List (Option ℚ) → List (Option ℚ)
  | Rule.SIMPLE, p, xs => rollingMeanO p xs
  | Rule.EXPONENTIAL, p, xs => ewmMean (2 / ((p : ℚ) + 1)) xs

/-- The gain series fed to the smoother by the script implementing the rule. -/
def gain_series : Rule → List ℚ → List (Option ℚ)
  | Rule.SIMPLE, c => (gain_st c).map some
  | Rule.EXPONENTIAL, c => gain_gd c

/-- The loss series fed to the smoother by the script implementing the rule. -/
def loss_series : Rule → List ℚ → List (Option ℚ)
  | Rule.SIMPLE, c => (loss_st c).map some
  | Rule.EXPONENTIAL, c => loss_gd c

/-- The smoothed gain average as each script computes it. -/
def avg_gain_rule : Rule → ℕ → List ℚ → List (Option ℚ)
  | Rule.SIMPLE, p, c => avg_gain_roll p c
  | Rule.EXPONENTIAL, p, c => avg_gain_ewm p c

/-- The smoothed loss average as each script computes it. -/
def avg_loss_rule : Rule → ℕ → List ℚ → List (Option ℚ)
  | Rule.SIMPLE, p, c => avg_loss_roll p c
  | Rule.EXPONENTIAL, p, c => avg_loss_ewm p c

/-- The RSI column as each script computes it. -/
def rsi_rule : Rule → ℕ → List ℚ → List (Option ℚ)
  | Rule.SIMPLE, p, c => RSI_roll p c
  | Rule.EXPONENTIAL, p, c => RSI_ewm p c

/-- Modelled from the spec: the Indicator Engine boundary of §6 with its
window parameters and smoothing-rule selector, and the InvalidParameter
check of §4/§7.  The scripts hardcode fast = 20, slow = 50, p = 14 and
contain no parameter-validation code, so the guard on non-positive
parameters is taken from the spec; the empty-input check and the compute
path are the scripts' own (checked first, as in the scripts). -/
def get_data_engine (r : Rule) (fast slow p : ℤ) (bars : List Bar) :
    Except Err IndicatorFrame :=
  if bars.isEmpty then Except.error Err.emptyInput
  else if fast ≤ 0 ∨ slow ≤ 0 ∨ p ≤ 0 then Except.error Err.invalidParameter
  else
    Except.ok
      { bars := bars
        smaFast := rollingMean fast.toNat (bars.map Bar.close)
        smaSlow := rollingMean slow.toNat (bars.map Bar.close)
        rsi := rsi_rule r p.toNat (bars.map Bar.close) }

/-- gold_dashboard_streamlit.py line 86: the last close. -/
def current_price (closes : List ℚ) : ℚ :=
  closes.getD (closes.length - 1) 0

/-- gold_dashboard_streamlit.py line 87: the close at position -2 when the
series has more than one row, else the current price. -/
def prev_close (closes : List ℚ) : ℚ :=
  if 1 < closes.length then closes.getD (closes.length - 2) 0
  else current_price closes

/-- gold_dashboard_streamlit.py line 88. -/
def price_change (closes : List ℚ) : ℚ :=
  current_price closes - prev_close closes

/-- gold_dashboard_streamlit.py line 89: Python float division raises
ZeroDivisionError when prev_close is zero, embedded as `none`. -/
def percent_change (closes : List ℚ) : Option ℚ :=
  if prev_close closes = 0 then none
  else some (price_change closes / prev_close closes * 100)

/-- Partial geometric weight total `1 + b + ... + b^(i-1)`; with b = 1 - alpha
this is the pandas adjust=True weight denominator after i observations. -/
def ewm_weight (b : ℚ) (i : ℕ) : ℚ :=
  ∑ t ∈ Finset.range i, b ^ t

/-! ### Length and pointwise characterization lemmas -/

lemma diffs_length (closes : List ℚ) : (diffs closes).length = closes.length := by
  simp [diffs]

lemma gain_gd_length (closes : List ℚ) : (gain_gd closes).length = closes.length := by
  simp [gain_gd, diffs_length]

lemma loss_gd_length (closes : List ℚ) : (loss_gd closes).length = closes.length := by
  simp [loss_gd, diffs_length]

lemma gain_st_length (closes : List ℚ) : (gain_st closes).length = closes.length := by
  simp [gain_st, diffs_length]

lemma loss_st_length (closes : List ℚ) : (loss_st closes).length = closes.length := by
  simp [loss_st, diffs_length]

lemma rollingMean_length (w : ℕ) (xs : List ℚ) :
    (rollingMean w xs).length = xs.length := by
  simp [rollingMean]

lemma diffs_getElem (closes : List ℚ) (j : ℕ) (hj : j < closes.length) :
    (diffs closes)[j]? =
      some (if j = 0 then none
            else some (closes.getD j 0 - closes.getD (j - 1) 0)) := by
  simp [diffs, List.getElem?_range hj]

lemma gain_gd_getElem_zero (closes : List ℚ) (h : closes ≠ []) :
    (gain_gd closes)[0]? = some none := by
  have h0 : 0 < closes.length := List.length_pos.2 h
  simp [gain_gd, diffs_getElem closes 0 h0]

lemma gain_gd_getElem_succ (closes : List ℚ) (j : ℕ) (hj : j + 1 < closes.length) :
    (gain_gd closes)[j + 1]? =
      some (some (max (closes.getD (j + 1) 0 - closes.getD j 0) 0)) := by
  simp [gain_gd, diffs_getElem closes (j + 1) hj]

lemma loss_gd_getElem_zero (closes : List ℚ) (h : closes ≠ []) :
    (loss_gd closes)[0]? = some none := by
  have h0 : 0 < closes.length := List.length_pos.2 h
  simp [loss_gd, diffs_getElem closes 0 h0]

lemma loss_gd_getElem_succ (closes : List ℚ) (j : ℕ) (hj : j + 1 < closes.length) :
    (loss_gd closes)[j + 1]? =
      some (some (max (-(closes.getD (j + 1) 0 - closes.getD j 0)) 0)) := by
  simp [loss_gd, diffs_getElem closes (j + 1) hj]

lemma gain_st_getElem_zero (closes : List ℚ) (h : closes ≠ []) :
    (gain_st closes)[0]? = some 0 := by
  have h0 : 0 < closes.length := List.length_pos.2 h
  simp [gain_st, diffs_getElem closes 0 h0]

lemma gain_st_getElem_succ (closes : List ℚ) (j : ℕ) (hj : j + 1 < closes.length) :
    (gain_st closes)[j + 1]? =
      some (if 0 < closes.getD (j + 1) 0 - closes.getD j 0
            then closes.getD (j + 1) 0 - closes.getD j 0 else 0) := by
  simp [gain_st, diffs_getElem closes (j + 1) hj]

lemma loss_st_getElem_zero (closes : List ℚ) (h : closes ≠ []) :
    (loss_st closes)[0]? = some 0 := by
  have h0 : 0 < closes.length := List.length_pos.2 h
  simp [loss_st, diffs_getElem closes 0 h0]

lemma loss_st_getElem_succ (closes : List ℚ) (j : ℕ) (hj : j + 1 < closes.length) :
    (loss_st closes)[j + 1]? =
      some (-(if closes.getD (j + 1) 0 - closes.getD j 0 < 0
              then closes.getD (j + 1) 0 - closes.getD j 0 else 0)) := by
  simp [loss_st, diffs_getElem closes (j + 1) hj]

lemma rollingMean_getElem (w : ℕ) (xs : List ℚ) (i : ℕ) (hi : i < xs.length) :
    (rollingMean w xs)[i]? =
      some (if w ≤ i + 1
            then some (((xs.drop (i + 1 - w)).take w).sum / (w : ℚ))
            else none) := by
  simp [rollingMean, List.getElem?_range hi]

/-! ### Window (take of drop) helper lemmas -/

lemma window_length {xs : List ℚ} {j w : ℕ} (h : j + w ≤ xs.length) :
    ((xs.drop j).take w).length = w := by
  simp only [List.length_take, List.length_drop]
  omega

lemma window_getElem (xs : List ℚ) (j w t : ℕ) (ht : t < w) :
    ((xs.drop j).take w)[t]? = xs[j + t]? := by
  rw [List.getElem?_take_of_lt ht, List.getElem?_drop]

lemma mem_window {xs : List ℚ} {j w : ℕ} {x : ℚ} (hx : x ∈ (xs.drop j).take w) :
    ∃ t, j ≤ t ∧ t < j + w ∧ xs[t]? = some x := by
  obtain ⟨t, ht⟩ := List.mem_iff_getElem?.1 hx
  have htw : t < w := by
    obtain ⟨h, -⟩ := List.getElem?_eq_some_iff.1 ht
    have := List.length_take_le w (xs.drop j)
    omega
  rw [window_getElem xs j w t htw] at ht
  exact ⟨j + t, Nat.le_add_right _ _, by omega, ht⟩

lemma window_mem_of_getElem {xs : List ℚ} {j w t : ℕ} {v : ℚ}
    (h1 : j ≤ t) (h2 : t < j + w) (hv : xs[t]? = some v) :
    v ∈ (xs.drop j).take w := by
  have h3 : ((xs.drop j).take w)[t - j]? = some v := by
    rw [window_getElem xs j w (t - j) (by omega)]
    rwa [Nat.add_sub_cancel' h1]
  exact List.getElem?_mem h3

/-! ### Exponentially weighted mean: scan characterization and invariants -/

lemma ewmState_nil (a : ℚ) (s : ℚ × ℚ) : ewmState a s [] = s := rfl

lemma ewmState_cons (a : ℚ) (s : ℚ × ℚ) (o : Option ℚ) (t : List (Option ℚ)) :
    ewmState a s (o :: t) = ewmState a (ewmStep a s o) t := rfl

lemma ewmAux_length (a : ℚ) (s : ℚ × ℚ) (xs : List (Option ℚ)) :
    (ewmAux a s xs).length = xs.length := by
  induction xs generalizing s with
  | nil => rfl
  | cons x t ih => simp [ewmAux, ih]

lemma ewmMean_length (a : ℚ) (xs : List (Option ℚ)) :
    (ewmMean a xs).length = xs.length := ewmAux_length a _ xs

lemma ewmAux_getElem (a : ℚ) (xs : List (Option ℚ)) (s : ℚ × ℚ) (i : ℕ)
    (hi : i < xs.length) :
    (ewmAux a s xs)[i]? = some (ewmOut (ewmState a s (xs.take (i + 1)))) := by
  induction xs generalizing s i with
  | nil => simp at hi
  | cons x t ih =>
    cases i with
    | zero => simp [ewmAux, ewmState_cons, ewmState_nil]
    | succ n =>
      have hn : n < t.length := by simpa using hi
      simp only [ewmAux, List.getElem?_cons_succ, List.take_succ_cons]
      rw [ih (ewmStep a s x) n hn]
      rfl

lemma ewmMean_getElem (a : ℚ) (xs : List (Option ℚ)) (i : ℕ) (hi : i < xs.length) :
    (ewmMean a xs)[i]? = some (ewmOut (ewmState a (0, 0) (xs.take (i + 1)))) :=
  ewmAux_getElem a xs (0, 0) i hi

lemma ewmState_nonneg (a : ℚ) (ha : 0 ≤ 1 - a) (xs : List (Option ℚ))
    (s : ℚ × ℚ) (hmem : ∀ o ∈ xs, ∀ x, o = some x → 0 ≤ x)
    (h1 : 0 ≤ s.1) (h2 : 0 ≤ s.2) :
    0 ≤ (ewmState a s xs).1 ∧ 0 ≤ (ewmState a s xs).2 := by
  induction xs generalizing s with
  | nil => exact ⟨h1, h2⟩
  | cons o t ih =>
    have hstep : 0 ≤ (ewmStep a s o).1 ∧ 0 ≤ (ewmStep a s o).2 := by
      cases o with
      | none => exact ⟨mul_nonneg ha h1, mul_nonneg ha h2⟩
      | some x =>
        have hx : 0 ≤ x := hmem _ (by simp) x rfl
        exact ⟨add_nonneg (mul_nonneg ha h1) hx,
               add_nonneg (mul_nonneg ha h2) zero_le_one⟩
    rw [ewmState_cons]
    exact ih _ (fun o ho x hx => hmem o (by simp [ho]) x hx) hstep.1 hstep.2

lemma ewmState_num_zero (a : ℚ) (xs : List (Option ℚ)) (s : ℚ × ℚ)
    (hmem : ∀ o ∈ xs, o = none ∨ o = some 0) (h1 : s.1 = 0) :
    (ewmState a s xs).1 = 0 := by
  induction xs generalizing s with
  | nil => exact h1
  | cons o t ih =>
    have hstep : (ewmStep a s o).1 = 0 := by
      rcases hmem o (by simp) with h | h <;> subst h <;> simp [ewmStep, h1]
    rw [ewmState_cons]
    exact ih _ (fun o ho => hmem o (by simp [ho])) hstep

lemma ewmState_den_pos (a : ℚ) (ha : 0 < 1 - a) (xs : List (Option ℚ))
    (s : ℚ × ℚ) (h2 : 0 < s.2) : 0 < (ewmState a s xs).2 := by
  induction xs generalizing s with
  | nil => exact h2
  | cons o t ih =>
    have hstep : 0 < (ewmStep a s o).2 := by
      cases o with
      | none => exact mul_pos ha h2
      | some x => exact add_pos (mul_pos ha h2) one_pos
    rw [ewmState_cons]
    exact ih _ hstep

lemma ewmState_den_pos_of_mem (a : ℚ) (ha : 0 < 1 - a) (xs : List (Option ℚ))
    (s : ℚ × ℚ) (h2 : 0 ≤ s.2) (hex : ∃ o ∈ xs, o.isSome) :
    0 < (ewmState a s xs).2 := by
  induction xs generalizing s with
  | nil => simp at hex
  | cons o t ih =>
    rw [ewmState_cons]
    obtain ⟨o', ho', hs⟩ := hex
    rcases List.mem_cons.1 ho' with h | h
    · subst h
      obtain ⟨x, hx⟩ := Option.isSome_iff_exists.1 hs
      subst hx
      exact ewmState_den_pos a ha t _
        (add_pos_of_nonneg_of_pos (mul_nonneg ha.le h2) one_pos)
    · have hstep : 0 ≤ (ewmStep a s o).2 := by
        cases o with
        | none => exact mul_nonneg ha.le h2
        | some x => exact add_nonneg (mul_nonneg ha.le h2) zero_le_one
      exact ih _ hstep ⟨o', h, hs⟩

lemma ewmState_num_pos (a : ℚ) (ha : 0 < 1 - a) (xs : List (Option ℚ))
    (s : ℚ × ℚ) (hmem : ∀ o ∈ xs, ∀ x, o = some x → 0 ≤ x)
    (h1 : 0 < s.1) : 0 < (ewmState a s xs).1 := by
  induction xs generalizing s with
  | nil => exact h1
  | cons o t ih =>
    have hstep : 0 < (ewmStep a s o).1 := by
      cases o with
      | none => exact mul_pos ha h1
      | some x =>
        exact add_pos_of_pos_of_nonneg (mul_pos ha h1) (hmem _ (by simp) x rfl)
    rw [ewmState_cons]
    exact ih _ (fun o ho x hx => hmem o (by simp [ho]) x hx) hstep

lemma ewmState_num_pos_of_mem (a : ℚ) (ha : 0 < 1 - a) (xs : List (Option ℚ))
    (s : ℚ × ℚ) (hmem : ∀ o ∈ xs, ∀ x, o = some x → 0 ≤ x) (h1 : 0 ≤ s.1)
    (hex : ∃ o ∈ xs, ∃ x, o = some x ∧ 0 < x) :
    0 < (ewmState a s xs).1 := by
  induction xs generalizing s with
  | nil => simp at hex
  | cons o t ih =>
    rw [ewmState_cons]
    obtain ⟨o', ho', x, hx, hxpos⟩ := hex
    rcases List.mem_cons.1 ho' with h | h
    · subst h; subst hx
      exact ewmState_num_pos a ha t _
        (fun o ho y hy => hmem o (by simp [ho]) y hy)
        (add_pos_of_nonneg_of_pos (mul_nonneg ha.le h1) hxpos)
    · have hstep : 0 ≤ (ewmStep a s o).1 := by
        cases o with
        | none => exact mul_nonneg ha.le h1
        | some y =>
          exact add_nonneg (mul_nonneg ha.le h1) (hmem _ (by simp) y rfl)
      exact ih _ (fun o ho y hy => hmem o (by simp [ho]) y hy) hstep ⟨o', h, x, hx, hxpos⟩

/-! ### rsiVal case lemmas and bounds -/

lemma rsiVal_pos_zero {g : ℚ} (hg : g ≠ 0) : rsiVal (some g) (some 0) = some 100 := by
  simp [rsiVal, hg]

lemma rsiVal_zero_ne {l : ℚ} (hl : l ≠ 0) : rsiVal (some 0) (some l) = some 0 := by
  simp [rsiVal, hl]

lemma rsiVal_bounds {g l q : ℚ} (hg : 0 ≤ g) (hl : 0 ≤ l)
    (h : rsiVal (some g) (some l) = some q) : 0 ≤ q ∧ q ≤ 100 := by
  by_cases hl0 : l = 0
  · subst hl0
    by_cases hg0 : g = 0
    · simp [rsiVal, hg0] at h
    · rw [rsiVal_pos_zero hg0] at h
      obtain rfl : (100 : ℚ) = q := Option.some_injective _ h
      norm_num
  · have hr : 0 ≤ g / l := div_nonneg hg hl
    have h1 : (1 : ℚ) ≤ 1 + g / l := le_add_of_nonneg_right hr
    have hne : 1 + g / l ≠ 0 := by positivity
    simp only [rsiVal, if_neg hl0, if_neg hne] at h
    obtain rfl : 100 - 100 / (1 + g / l) = q := Option.some_injective _ h
    constructor
    · have : 100 / (1 + g / l) ≤ 100 := div_le_self (by norm_num) h1
      linarith
    · have : 0 < 100 / (1 + g / l) := div_pos (by norm_num) (by positivity)
      linarith

lemma zipWith_getElem_some {α β γ : Type} {f : α → β → γ} {as : List α}
    {bs : List β} {i : ℕ} {x : α} {y : β}
    (ha : as[i]? = some x) (hb : bs[i]? = some y) :
    (List.zipWith f as bs)[i]? = some (f x y) :=
  List.getElem?_zipWith_eq_some.2 ⟨x, y, ha, hb, rfl⟩

/-! ### Nonnegativity of the gain and loss series -/

lemma gain_gd_mem_nonneg (closes : List ℚ) :
    ∀ o ∈ gain_gd closes, ∀ x, o = some x → 0 ≤ x := by
  intro o ho x hx
  obtain ⟨d, -, rfl⟩ := List.mem_map.1 ho
  cases d with
  | none => simp at hx
  | some v =>
    obtain rfl : max v 0 = x := Option.some_injective _ hx
    exact le_max_right v 0

lemma loss_gd_mem_nonneg (closes : List ℚ) :
    ∀ o ∈ loss_gd closes, ∀ x, o = some x → 0 ≤ x := by
  intro o ho x hx
  obtain ⟨d, -, rfl⟩ := List.mem_map.1 ho
  cases d with
  | none => simp at hx
  | some v =>
    obtain rfl : max (-v) 0 = x := Option.some_injective _ hx
    exact le_max_right (-v) 0

lemma gain_st_mem_nonneg (closes : List ℚ) : ∀ x ∈ gain_st closes, 0 ≤ x := by
  intro x hx
  obtain ⟨d, -, rfl⟩ := List.mem_map.1 hx
  cases d with
  | none => exact le_refl 0
  | some v =>
    by_cases hv : 0 < v
    · simpa [hv] using hv.le
    · simp [hv]

lemma loss_st_mem_nonneg (closes : List ℚ) : ∀ x ∈ loss_st closes, 0 ≤ x := by
  intro x hx
  obtain ⟨d, -, rfl⟩ := List.mem_map.1 hx
  cases d with
  | none => exact le_refl 0
  | some v =>
    by_cases hv : v < 0
    · simp only [if_pos hv]
      linarith
    · simp [hv]

/-! ### Nonnegativity of the smoothed averages -/

lemma ewmMean_entry_nonneg {a : ℚ} (ha : 0 ≤ 1 - a) {xs : List (Option ℚ)}
    (hmem : ∀ o ∈ xs, ∀ x, o = some x → 0 ≤ x) {i : ℕ} {q : ℚ}
    (h : (ewmMean a xs)[i]? = some (some q)) : 0 ≤ q := by
  have hi : i < xs.length := by
    obtain ⟨hlt, -⟩ := List.getElem?_eq_some_iff.1 h
    simpa [ewmMean_length] using hlt
  rw [ewmMean_getElem a xs i hi] at h
  obtain heq : ewmOut (ewmState a (0, 0) (xs.take (i + 1))) = some q :=
    Option.some_injective _ h
  have hstate := ewmState_nonneg a ha (xs.take (i + 1)) (0, 0)
    (fun o ho x hx => hmem o (List.mem_of_mem_take ho) x hx)
    (le_refl 0) (le_refl 0)
  rw [ewmOut] at heq
  split_ifs at heq with hden
  obtain heq2 := Option.some_injective _ heq
  subst heq2
  exact div_nonneg hstate.1 hstate.2

lemma rollingMean_entry_nonneg {w : ℕ} {xs : List ℚ}
    (hmem : ∀ x ∈ xs, 0 ≤ x) {i : ℕ} {q : ℚ}
    (h : (rollingMean w xs)[i]? = some (some q)) : 0 ≤ q := by
  have hi : i < xs.length := by
    obtain ⟨hlt, -⟩ := List.getElem?_eq_some_iff.1 h
    simpa [rollingMean_length] using hlt
  rw [rollingMean_getElem w xs i hi] at h
  by_cases hw : w ≤ i + 1
  · simp only [if_pos hw] at h
    obtain heq := Option.some_injective _ h
    obtain rfl := Option.some_injective _ heq
    refine div_nonneg (List.sum_nonneg ?_) (by positivity)
    intro x hx
    exact hmem x (List.mem_of_mem_drop (List.mem_of_mem_take hx))
  · simp [if_neg hw] at h

/-! ### The rolling mean on a NaN-free series agrees with the general one -/

lemma rollingMean_eq_rollingMeanO (w : ℕ) (xs : List ℚ) :
    rollingMean w xs = rollingMeanO w (xs.map some) := by
  unfold rollingMean rollingMeanO
  rw [List.length_map]
  refine List.map_congr_left ?_
  intro i _
  by_cases hw : w ≤ i + 1
  · have hwin : ((xs.map some).drop (i + 1 - w)).take w
        = ((xs.drop (i + 1 - w)).take w).map some := by
      rw [← List.map_drop, ← List.map_take]
    have hall : ∀ x ∈ ((xs.drop (i + 1 - w)).take w).map some,
        x.isSome = true := by
      intro x hx
      obtain ⟨y, -, rfl⟩ := List.mem_map.1 hx
      rfl
    have hid : ((xs.drop (i + 1 - w)).take w).map
        ((fun o => Option.getD o 0) ∘ some) = (xs.drop (i + 1 - w)).take w :=
      List.map_id'' (fun x => rfl) ((xs.drop (i + 1 - w)).take w)
    rw [if_pos hw, if_pos hw, hwin, if_pos (List.all_eq_true.2 hall),
      List.map_map, hid]
  · rw [if_neg hw, if_neg hw]

/-- C1: the engine input carries a smoothing-rule selector (SIMPLE or
EXPONENTIAL), and one RSI pass applies the selected smoothing operator to
the gain series and to the loss series alike — the same operator `smooth r p`
produces both averages, so the two rules are never mixed within one pass. -/
theorem claim1_smoothing_selector (r : Rule) (p : ℕ) (closes : List ℚ) :
    avg_gain_rule r p closes = smooth r p (gain_series r closes) ∧
    avg_loss_rule r p closes = smooth r p (loss_series r closes) := by
  cases r with
  | SIMPLE =>
    simp only [avg_gain_rule, avg_loss_rule, smooth, gain_series, loss_series,
      avg_gain_roll, avg_loss_roll]
    exact ⟨rollingMean_eq_rollingMeanO p (gain_st closes),
           rollingMean_eq_rollingMeanO p (loss_st closes)⟩
  | EXPONENTIAL => exact ⟨rfl, rfl⟩

/-- C4: SMA with window w is undefined at indices below w - 1; from w - 1
on it is the arithmetic mean of the trailing w closes (the window really
has w elements), and on a constant series every defined value equals the
constant. -/
theorem claim4_sma_window (closes : List ℚ) (w : ℕ) (hw : 0 < w) (i : ℕ)
    (hi : i < closes.length) :
    (i + 1 < w → (rollingMean w closes)[i]? = some none) ∧
    (w ≤ i + 1 →
      ((closes.drop (i + 1 - w)).take w).length = w ∧
      (rollingMean w closes)[i]? =
        some (some (((closes.drop (i + 1 - w)).take w).sum / (w : ℚ))) ∧
      ∀ k, (∀ x ∈ closes, x = k) →
        (rollingMean w closes)[i]? = some (some k)) := by
  constructor
  · intro hlt
    rw [rollingMean_getElem w closes i hi, if_neg (by omega)]
  · intro hge
    have hwinlen : ((closes.drop (i + 1 - w)).take w).length = w :=
      window_length (by omega)
    refine ⟨hwinlen, ?_, ?_⟩
    · rw [rollingMean_getElem w closes i hi, if_pos hge]
    · intro k hk
      have hwin : ∀ x ∈ (closes.drop (i + 1 - w)).take w, x = k := fun x hx =>
        hk x (List.mem_of_mem_drop (List.mem_of_mem_take hx))
      have hsum : ((closes.drop (i + 1 - w)).take w).sum = (w : ℚ) * k := by
        rw [List.sum_eq_card_nsmul _ k hwin, hwinlen, nsmul_eq_mul]
      rw [rollingMean_getElem w closes i hi, if_pos hge, hsum,
        mul_div_cancel_left₀ k (by exact_mod_cast hw.ne')]

/-- C4 witness: window 3 on the 3-bar series 10, 11, 12 is undefined at
index 1 and equals 11 at index 2; on a constant series it returns the
constant. -/
theorem claim4_sma_window_witness :
    (rollingMean 3 [10, 11, 12])[1]? = some none ∧
    (rollingMean 3 [10, 11, 12])[2]? = some (some 11) ∧
    (rollingMean 3 [7, 7, 7])[2]? = some (some 7) := by
  refine ⟨(claim4_sma_window [10, 11, 12] 3 (by decide) 1 (by decide)).1 (by decide),
    ?_, ?_⟩
  · have h := ((claim4_sma_window [10, 11, 12] 3 (by decide) 2
      (by decide)).2 (by decide)).2.1
    rw [h]
    norm_num
  · exact ((claim4_sma_window [7, 7, 7] 3 (by decide) 2
      (by decide)).2 (by decide)).2.2 7 (by norm_num)

/-- C9: the indicator computation is a pure value-level transform — on any
nonempty input both scripts produce a frame that carries the input bars
(all OHLCV fields) unchanged; the engine holds no state besides its
argument, so the frame-effect of the computation on the input Series is
nil. -/
theorem claim9_no_mutation (bars : List Bar) (h : bars ≠ []) :
    ∃ f g, get_data bars = Except.ok f ∧ f.bars = bars ∧
      build_frame_st bars = Except.ok g ∧ g.bars = bars := by
  have hne : bars.isEmpty = false := by
    simpa [List.isEmpty_iff] using h
  exact ⟨⟨bars, rollingMean 20 (bars.map Bar.close),
          rollingMean 50 (bars.map Bar.close), RSI_gd (bars.map Bar.close)⟩,
         ⟨bars, rollingMean 20 (bars.map Bar.close),
          rollingMean 50 (bars.map Bar.close), RSI_st (bars.map Bar.close)⟩,
         by simp [get_data, hne], rfl, by simp [build_frame_st, hne], rfl⟩

/-- C9 witness at a one-bar series. -/
theorem claim9_no_mutation_witness :
    ∃ f g, get_data [Bar.mk 1 2 3 4 5] = Except.ok f ∧
      f.bars = [Bar.mk 1 2 3 4 5] ∧
      build_frame_st [Bar.mk 1 2 3 4 5] = Except.ok g ∧
      g.bars = [Bar.mk 1 2 3 4 5] :=
  claim9_no_mutation [Bar.mk 1 2 3 4 5] (by simp)

/-- C3: a zero-length Series makes the engine (and both scripts) fail with
EmptyInput before any indicator arithmetic, and — on the spec-modelled
parameter check — any non-positive fast window, slow window or RSI lookback
fails with InvalidParameter. -/
theorem claim3_error_conditions (r : Rule) (fast slow p : ℤ) (bars : List Bar) :
    (bars = [] →
      get_data_engine r fast slow p bars = Except.error Err.emptyInput ∧
      get_data bars = Except.error Err.emptyInput ∧
      build_frame_st bars = Except.error Err.emptyInput) ∧
    (bars ≠ [] → fast ≤ 0 ∨ slow ≤ 0 ∨ p ≤ 0 →
      get_data_engine r fast slow p bars = Except.error Err.invalidParameter) := by
  constructor
  · rintro rfl
    exact ⟨rfl, rfl, rfl⟩
  · intro hne hbad
    have h1 : bars.isEmpty = false := by
      simpa [List.isEmpty_iff] using hne
    simp [get_data_engine, h1, hbad]

/-- C3 witness: the empty series yields EmptyInput on every embedding, and
fast = 0 on a one-bar series yields InvalidParameter. -/
theorem claim3_error_conditions_witness :
    get_data_engine Rule.SIMPLE 20 50 14 [] = Except.error Err.emptyInput ∧
    get_data [] = Except.error Err.emptyInput ∧
    build_frame_st [] = Except.error Err.emptyInput ∧
    get_data_engine Rule.SIMPLE 0 50 14 [Bar.mk 1 2 3 4 5] =
      Except.error Err.invalidParameter := by
  obtain h := claim3_error_conditions Rule.SIMPLE 20 50 14 []
  obtain h2 := claim3_error_conditions Rule.SIMPLE 0 50 14 [Bar.mk 1 2 3 4 5]
  exact ⟨(h.1 rfl).1, (h.1 rfl).2.1, (h.1 rfl).2.2,
         h2.2 (by simp) (Or.inl le_rfl)⟩

/-- C5: every defined RSI value lies between 0 and 100, under either
smoothing rule and any positive lookback. -/
theorem claim5_rsi_bounded (r : Rule) (p : ℕ) (closes : List ℚ) (i : ℕ) (q : ℚ)
    (hp : 1 ≤ p) (h : (rsi_rule r p closes)[i]? = some (some q)) :
    0 ≤ q ∧ q ≤ 100 := by
  have halpha : 0 ≤ 1 - 2 / ((p : ℚ) + 1) := by
    have h1 : (1 : ℚ) ≤ (p : ℚ) := by exact_mod_cast hp
    have hpos : (0 : ℚ) < (p : ℚ) + 1 := by positivity
    have h2 : 2 / ((p : ℚ) + 1) ≤ 1 := (div_le_one hpos).2 (by linarith)
    linarith
  cases r with
  | SIMPLE =>
    simp only [rsi_rule, RSI_roll, avg_gain_roll, avg_loss_roll] at h
    obtain ⟨og, ol, hg, hl, hf⟩ := List.getElem?_zipWith_eq_some.1 h
    cases og with
    | none => simp [rsiVal] at hf
    | some g =>
      cases ol with
      | none => simp [rsiVal] at hf
      | some l =>
        exact rsiVal_bounds
          (rollingMean_entry_nonneg (gain_st_mem_nonneg closes) hg)
          (rollingMean_entry_nonneg (loss_st_mem_nonneg closes) hl) hf
  | EXPONENTIAL =>
    simp only [rsi_rule, RSI_ewm, avg_gain_ewm, avg_loss_ewm] at h
    obtain ⟨og, ol, hg, hl, hf⟩ := List.getElem?_zipWith_eq_some.1 h
    cases og with
    | none => simp [rsiVal] at hf
    | some g =>
      cases ol with
      | none => simp [rsiVal] at hf
      | some l =>
        exact rsiVal_bounds
          (ewmMean_entry_nonneg halpha (gain_gd_mem_nonneg closes) hg)
          (ewmMean_entry_nonneg halpha (loss_gd_mem_nonneg closes) hl) hf

/-- C5 witness: the RSI of the rising two-bar series 10, 11 under the
exponential rule is 100, which the theorem brackets into the 0..100 band. -/
theorem claim5_rsi_bounded_witness :
    (rsi_rule Rule.EXPONENTIAL 14 [10, 11])[1]? = some (some 100) ∧
    0 ≤ (100 : ℚ) ∧ (100 : ℚ) ≤ 100 := by
  have heval : (rsi_rule Rule.EXPONENTIAL 14 [10, 11])[1]? = some (some 100) := by
    norm_num [rsi_rule, RSI_ewm, avg_gain_ewm, avg_loss_ewm, ewmMean, ewmAux,
      ewmStep, ewmOut, gain_gd, loss_gd, diffs, List.range_succ, rsiVal]
  exact ⟨heval,
    claim5_rsi_bounded Rule.EXPONENTIAL 14 [10, 11] 1 100 (by decide) heval⟩

/-- C10 counterexample: on the length-1 series whose single close is 0 the
fallback still fires and price_change is 0, but percent_change divides by
prev_close = 0 — a ZeroDivisionError (embedded as `none`), not 0. -/
theorem claim10_counterexample :
    ([(0 : ℚ)].length = 1) ∧ price_change [(0 : ℚ)] = 0 ∧
    percent_change [(0 : ℚ)] = none ∧ percent_change [(0 : ℚ)] ≠ some 0 := by
  refine ⟨rfl, ?_, ?_, ?_⟩
  · norm_num [price_change, current_price, prev_close]
  · norm_num [percent_change, prev_close, current_price]
  · norm_num [percent_change, prev_close, current_price]
    intro hcon
    cases hcon

/-- C10 (amended): for every fetched Series of length exactly 1 the
previous-close lookup falls back to the current price (no position -2
access) and price_change = 0; percent_change = 0 moreover holds whenever
the single close is nonzero (a zero close makes the percent computation a
division by zero). -/
theorem claim10_length_one_fallback (closes : List ℚ) (h : closes.length = 1) :
    prev_close closes = current_price closes ∧
    price_change closes = 0 ∧
    (current_price closes ≠ 0 → percent_change closes = some 0) := by
  have h1 : ¬ 1 < closes.length := by omega
  have hp : prev_close closes = current_price closes := by
    unfold prev_close
    rw [if_neg h1]
  have hpc : price_change closes = 0 := by
    unfold price_change
    rw [hp, sub_self]
  refine ⟨hp, hpc, ?_⟩
  intro hc
  unfold percent_change
  rw [hp, if_neg hc, hpc, zero_div, zero_mul]

/-- C10 witness at the length-1 series with close 5. -/
theorem claim10_length_one_fallback_witness :
    prev_close [(5 : ℚ)] = current_price [(5 : ℚ)] ∧
    price_change [(5 : ℚ)] = 0 ∧
    percent_change [(5 : ℚ)] = some 0 := by
  obtain ⟨h1, h2, h3⟩ := claim10_length_one_fallback [(5 : ℚ)] rfl
  exact ⟨h1, h2, h3 (by norm_num [current_price])⟩

/-- C7 counterexample: on the strictly rising 14-bar series 1..14 the
simple-rule average gain is already defined at index 13 = p - 1 (the
where-split turned the undefined delta at index 0 into the observation 0),
with value 13/14, and the RSI there is 100 — the claim asserts both are
undefined at every index below p = 14. -/
theorem claim7_counterexample :
    (13 : ℕ) < 14 ∧
    (avg_gain_roll 14 [1, 2, 3, 4, 5, 6, 7, 8, 9, 10, 11, 12, 13, 14])[13]?
      = some (some (13 / 14)) ∧
    (avg_gain_roll 14 [1, 2, 3, 4, 5, 6, 7, 8, 9, 10, 11, 12, 13, 14])[13]?
      ≠ some none ∧
    (RSI_st [1, 2, 3, 4, 5, 6, 7, 8, 9, 10, 11, 12, 13, 14])[13]?
      = some (some 100) := by
  have h2 : (avg_gain_roll 14 [1, 2, 3, 4, 5, 6, 7, 8, 9, 10, 11, 12, 13, 14])[13]?
      = some (some (13 / 14)) := by
    norm_num [avg_gain_roll, rollingMean, gain_st, diffs, List.range_succ]
  refine ⟨by norm_num, h2, by rw [h2]; simp, ?_⟩
  norm_num [RSI_st, RSI_roll, avg_gain_roll, avg_loss_roll, rollingMean,
    gain_st, loss_st, diffs, List.range_succ, rsiVal]

/-- C7 (amended): delta[0] is undefined, but the where-split maps it to the
observation 0, so the rolling average gain is defined exactly from index
p - 1 on (undefined below), its value being the mean of the trailing p
entries of the gain series; entries at positions j ≥ 1 of that series are
the actual per-delta gains, while position 0 holds the artificial 0. -/
theorem claim7_roll_boundary (p : ℕ) (closes : List ℚ) (hp : 0 < p) :
    (closes ≠ [] → (diffs closes)[0]? = some none ∧ (gain_st closes)[0]? = some 0) ∧
    (∀ i, i < closes.length → i + 1 < p →
      (avg_gain_roll p closes)[i]? = some none) ∧
    (∀ i, i < closes.length → p ≤ i + 1 →
      (avg_gain_roll p closes)[i]? =
        some (some ((((gain_st closes).drop (i + 1 - p)).take p).sum / (p : ℚ)))) ∧
    (∀ j, 1 ≤ j → j < closes.length →
      (gain_st closes)[j]? =
        some (if 0 < closes.getD j 0 - closes.getD (j - 1) 0
              then closes.getD j 0 - closes.getD (j - 1) 0 else 0)) := by
  refine ⟨?_, ?_, ?_, ?_⟩
  · intro hne
    have h0 : 0 < closes.length := List.length_pos.2 hne
    exact ⟨by simp [diffs_getElem closes 0 h0], gain_st_getElem_zero closes hne⟩
  · intro i hi hlt
    have hilen : i < (gain_st closes).length := by rw [gain_st_length]; exact hi
    rw [avg_gain_roll, rollingMean_getElem p _ i hilen, if_neg (by omega)]
  · intro i hi hge
    have hilen : i < (gain_st closes).length := by rw [gain_st_length]; exact hi
    rw [avg_gain_roll, rollingMean_getElem p _ i hilen, if_pos hge]
  · intro j hj hjlen
    cases j with
    | zero => omega
    | succ t =>
      have := gain_st_getElem_succ closes t hjlen
      simpa using this

/-- C7 witness: on a concrete 14-bar series the average gain is undefined at
index 5, defined at index 13 with the window-mean value, the delta at 0 is
undefined, and the gain entry at position 1 is the actual first delta. -/
theorem claim7_roll_boundary_witness :
    ((diffs [1, 2, 3, 4, 5, 6, 7, 8, 9, 10, 11, 12, 13, 15])[0]? = some none ∧
      (gain_st [1, 2, 3, 4, 5, 6, 7, 8, 9, 10, 11, 12, 13, 15])[0]? = some 0) ∧
    (avg_gain_roll 14 [1, 2, 3, 4, 5, 6, 7, 8, 9, 10, 11, 12, 13, 15])[5]?
      = some none ∧
    (avg_gain_roll 14 [1, 2, 3, 4, 5, 6, 7, 8, 9, 10, 11, 12, 13, 15])[13]?
      = some (some ((((gain_st [1, 2, 3, 4, 5, 6, 7, 8, 9, 10, 11, 12, 13, 15]).drop
          (13 + 1 - 14)).take 14).sum / (14 : ℚ))) ∧
    (gain_st [1, 2, 3, 4, 5, 6, 7, 8, 9, 10, 11, 12, 13, 15])[1]?
      = some (if 0 < ([1, 2, 3, 4, 5, 6, 7, 8, 9, 10, 11, 12, 13, 15] :
            List ℚ).getD 1 0 - ([1, 2, 3, 4, 5, 6, 7, 8, 9, 10, 11, 12, 13, 15] :
            List ℚ).getD 0 0
          then ([1, 2, 3, 4, 5, 6, 7, 8, 9, 10, 11, 12, 13, 15] :
            List ℚ).getD 1 0 - ([1, 2, 3, 4, 5, 6, 7, 8, 9, 10, 11, 12, 13, 15] :
            List ℚ).getD 0 0 else 0) := by
  obtain ⟨h1, h2, h3, h4⟩ := claim7_roll_boundary 14
    [1, 2, 3, 4, 5, 6, 7, 8, 9, 10, 11, 12, 13, 15] (by norm_num)
  exact ⟨h1 (by simp), h2 5 (by norm_num) (by norm_num),
         h3 13 (by norm_num) (by norm_num), h4 1 (by norm_num) (by norm_num)⟩

/-! ### The adjusted exponential recursion (weight denominators) -/

lemma ewmState_take_succ (a : ℚ) (xs : List (Option ℚ)) (i : ℕ) (o : Option ℚ)
    (ho : xs[i]? = some o) :
    ewmState a (0, 0) (xs.take (i + 1)) =
      ewmStep a (ewmState a (0, 0) (xs.take i)) o := by
  rw [List.take_succ, ho]
  simp [ewmState, List.foldl_append]

lemma gain_gd_take_one (closes : List ℚ) (hne : closes ≠ []) :
    (gain_gd closes).take 1 = [none] := by
  have h0 : (gain_gd closes)[0]? = some none := gain_gd_getElem_zero closes hne
  rw [(by rfl : (1 : ℕ) = 0 + 1), List.take_succ, h0]
  simp

lemma gain_gd_den (closes : List ℚ) (i : ℕ) (hi : i < closes.length) :
    (ewmState (2 / 15) (0, 0) ((gain_gd closes).take (i + 1))).2
      = ewm_weight (13 / 15) i := by
  induction i with
  | zero =>
    have hne : closes ≠ [] := by
      intro h
      subst h
      simp at hi
    rw [gain_gd_take_one closes hne]
    simp [ewmState, ewmStep, ewm_weight]
  | succ n ih =>
    have hn : n < closes.length := by omega
    have hglen : n + 1 < (gain_gd closes).length := by
      rw [gain_gd_length]
      exact hi
    obtain hval := gain_gd_getElem_succ closes n hi
    rw [ewmState_take_succ (2 / 15) (gain_gd closes) (n + 1) _ hval]
    have hden : (ewmStep (2 / 15) (ewmState (2 / 15) (0, 0)
        ((gain_gd closes).take (n + 1)))
        (some (max (closes.getD (n + 1) 0 - closes.getD n 0) 0))).2
        = (1 - 2 / 15) * (ewmState (2 / 15) (0, 0)
            ((gain_gd closes).take (n + 1))).2 + 1 := rfl
    rw [hden, ih hn, ewm_weight, ewm_weight, geom_sum_succ]
    norm_num

lemma ewm_weight_pos (i : ℕ) (hi : 1 ≤ i) : 0 < ewm_weight (13 / 15) i := by
  have h0 : ((13 : ℚ) / 15) ^ 0 ≤ ∑ t ∈ Finset.range i, (13 / 15 : ℚ) ^ t :=
    Finset.single_le_sum (fun t _ => by positivity) (Finset.mem_range.2 (by omega))
  rw [ewm_weight]
  have : ((13 : ℚ) / 15) ^ 0 = 1 := pow_zero _
  linarith

/-- C6 counterexample: on the series 10, 10, 11 (gain deltas 0 then 1) the
code's exponential average gain at index 2 is 15/28 — the pandas
adjust=True weight-normalized value — whereas the plain recursion
avg[2] = (1 - alpha) * avg[1] + alpha * x[2] with alpha = 2/15 and
avg[1] = 0 would give 2/15. -/
theorem claim6_counterexample :
    (avg_gain_ewm 14 [10, 10, 11])[1]? = some (some 0) ∧
    (avg_gain_ewm 14 [10, 10, 11])[2]? = some (some (15 / 28)) ∧
    (gain_gd [10, 10, 11])[2]? = some (some 1) ∧
    (15 / 28 : ℚ) ≠ (1 - 2 / 15) * 0 + (2 / 15) * 1 := by
  refine ⟨?_, ?_, ?_, by norm_num⟩ <;>
    norm_num [avg_gain_ewm, ewmMean, ewmAux, ewmStep, ewmOut, gain_gd, diffs,
      List.range_succ]

/-- C6 (amended): under the exponential rule with span 14 the first smoothed
value equals the first available observation, and each later value follows
the pandas adjust=True weight-normalized blend
avg[i+1] = (beta * W i * avg[i] + x[i+1]) / (beta * W i + 1) with
beta = 1 - alpha = 13/15 and W i the geometric weight total — not the
fixed-alpha recursion avg[i+1] = (1 - alpha) * avg[i] + alpha * x[i+1]. -/
theorem claim6_ewm_adjusted (closes : List ℚ) :
    (∀ x, (gain_gd closes)[1]? = some (some x) →
      (avg_gain_ewm 14 closes)[1]? = some (some x)) ∧
    (∀ i A B x, 1 ≤ i →
      (avg_gain_ewm 14 closes)[i]? = some (some A) →
      (avg_gain_ewm 14 closes)[i + 1]? = some (some B) →
      (gain_gd closes)[i + 1]? = some (some x) →
      B = ((13 / 15) * ewm_weight (13 / 15) i * A + x)
            / ((13 / 15) * ewm_weight (13 / 15) i + 1)) := by
  have ha : (2 : ℚ) / ((14 : ℕ) + 1 : ℚ) = 2 / 15 := by norm_num
  constructor
  · intro x hx
    have hlen : 1 < (gain_gd closes).length := by
      obtain ⟨h, -⟩ := List.getElem?_eq_some_iff.1 hx
      exact h
    have hne : closes ≠ [] := by
      intro h
      subst h
      simp [gain_gd_length] at hlen
    rw [avg_gain_ewm, ha, ewmMean_getElem (2 / 15) _ 1 hlen,
      ewmState_take_succ (2 / 15) (gain_gd closes) 1 _ hx,
      gain_gd_take_one closes hne]
    have hstate : ewmState (2 / 15) (0, 0) [none] = (0, 0) := by
      simp [ewmState, ewmStep]
    rw [hstate]
    simp [ewmStep, ewmOut]
  · intro i A B x h1i hA hB hx
    have hilen : i + 1 < (gain_gd closes).length := by
      obtain ⟨h, -⟩ := List.getElem?_eq_some_iff.1 hx
      exact h
    have hclen : i + 1 < closes.length := by
      rw [gain_gd_length] at hilen
      exact hilen
    rw [avg_gain_ewm, ha, ewmMean_getElem (2 / 15) _ i (by omega)] at hA
    rw [avg_gain_ewm, ha, ewmMean_getElem (2 / 15) _ (i + 1) hilen,
      ewmState_take_succ (2 / 15) (gain_gd closes) (i + 1) _ hx] at hB
    have hden : (ewmState (2 / 15) (0, 0) ((gain_gd closes).take (i + 1))).2
        = ewm_weight (13 / 15) i := gain_gd_den closes i (by omega)
    have hdpos : 0 < ewm_weight (13 / 15) i := ewm_weight_pos i h1i
    obtain hA2 := Option.some_injective _ hA
    rw [ewmOut, hden, if_neg hdpos.ne'] at hA2
    obtain hA3 := Option.some_injective _ hA2
    obtain hB2 := Option.some_injective _ hB
    have hstep1 : (ewmStep (2 / 15) (ewmState (2 / 15) (0, 0)
        ((gain_gd closes).take (i + 1))) (some x)).1
        = (13 / 15) * (ewmState (2 / 15) (0, 0)
            ((gain_gd closes).take (i + 1))).1 + x := by
      show (1 - 2 / 15) * _ + x = _
      norm_num
    have hstep2 : (ewmStep (2 / 15) (ewmState (2 / 15) (0, 0)
        ((gain_gd closes).take (i + 1))) (some x)).2
        = (13 / 15) * ewm_weight (13 / 15) i + 1 := by
      show (1 - 2 / 15) * _ + 1 = _
      rw [hden]
      norm_num
    have hd2pos : 0 < (13 / 15) * ewm_weight (13 / 15) i + 1 := by positivity
    rw [ewmOut, hstep2, if_neg hd2pos.ne', hstep1] at hB2
    obtain hB3 := Option.some_injective _ hB2
    have hnum : (ewmState (2 / 15) (0, 0) ((gain_gd closes).take (i + 1))).1
        = A * ewm_weight (13 / 15) i := by
      rw [← hA3]
      exact (div_mul_cancel₀ _ hdpos.ne').symm
    rw [← hB3, hnum]
    ring_nf

/-- C6 witness: on the series 10, 11, 12 the first average gain is the first
gain observation 1, and the value 1 at index 2 satisfies the adjusted blend
with W 1 = 1. -/
theorem claim6_ewm_adjusted_witness :
    (avg_gain_ewm 14 [10, 11, 12])[1]? = some (some 1) ∧
    (1 : ℚ) = ((13 / 15) * ewm_weight (13 / 15) 1 * 1 + 1)
        / ((13 / 15) * ewm_weight (13 / 15) 1 + 1) := by
  have hx1 : (gain_gd [10, 11, 12])[1]? = some (some 1) := by
    norm_num [gain_gd, diffs, List.range_succ]
  have hx2 : (gain_gd [10, 11, 12])[2]? = some (some 1) := by
    norm_num [gain_gd, diffs, List.range_succ]
  have hA : (avg_gain_ewm 14 [10, 11, 12])[1]? = some (some 1) :=
    (claim6_ewm_adjusted [10, 11, 12]).1 1 hx1
  have hB : (avg_gain_ewm 14 [10, 11, 12])[2]? = some (some 1) := by
    norm_num [avg_gain_ewm, ewmMean, ewmAux, ewmStep, ewmOut, gain_gd, diffs,
      List.range_succ]
  exact ⟨hA, (claim6_ewm_adjusted [10, 11, 12]).2 1 1 1 1 le_rfl hA hB hx2⟩

/-! ### Smoothed averages on monotone stretches -/

lemma avg_loss_roll_zero (closes : List ℚ) (i : ℕ) (hi : i < closes.length)
    (hge : 13 ≤ i)
    (hd : ∀ j, 1 ≤ j → i ≤ j + 13 → j ≤ i →
      0 ≤ closes.getD j 0 - closes.getD (j - 1) 0) :
    (avg_loss_roll 14 closes)[i]? = some (some 0) := by
  have hlen : i < (loss_st closes).length := by
    rw [loss_st_length]
    exact hi
  rw [avg_loss_roll, rollingMean_getElem 14 _ i hlen, if_pos (by omega)]
  have hsum : (((loss_st closes).drop (i + 1 - 14)).take 14).sum = 0 := by
    refine List.sum_eq_zero ?_
    intro x hx
    obtain ⟨j, hj1, hj2, hj⟩ := mem_window hx
    cases j with
    | zero =>
      have h0 : (loss_st closes)[0]? = some 0 :=
        loss_st_getElem_zero closes (by
          intro h
          subst h
          simp at hi)
      rw [h0] at hj
      exact (Option.some_injective _ hj).symm
    | succ t =>
      have hjlen : t + 1 < closes.length := by omega
      rw [loss_st_getElem_succ closes t hjlen] at hj
      obtain hx2 := Option.some_injective _ hj
      have hdj : 0 ≤ closes.getD (t + 1) 0 - closes.getD t 0 := by
        have := hd (t + 1) (by omega) (by omega) (by omega)
        simpa using this
      rw [if_neg (not_lt.2 hdj), neg_zero] at hx2
      exact hx2.symm
  rw [hsum, zero_div]

lemma avg_gain_roll_pos (closes : List ℚ) (i : ℕ) (hi : i < closes.length)
    (hge : 13 ≤ i)
    (hex : ∃ j, 1 ≤ j ∧ i ≤ j + 13 ∧ j ≤ i ∧
      0 < closes.getD j 0 - closes.getD (j - 1) 0) :
    ∃ g, 0 < g ∧ (avg_gain_roll 14 closes)[i]? = some (some g) := by
  have hlen : i < (gain_st closes).length := by
    rw [gain_st_length]
    exact hi
  rw [avg_gain_roll, rollingMean_getElem 14 _ i hlen, if_pos (by omega)]
  obtain ⟨j, hj1, hj2, hj3, hjpos⟩ := hex
  obtain ⟨t, rfl⟩ : ∃ t, j = t + 1 := ⟨j - 1, by omega⟩
  have hjlen : t + 1 < closes.length := by omega
  have hjpos2 : 0 < closes.getD (t + 1) 0 - closes.getD t 0 := by
    simpa using hjpos
  have hval : (gain_st closes)[t + 1]? =
      some (closes.getD (t + 1) 0 - closes.getD t 0) := by
    rw [gain_st_getElem_succ closes t hjlen, if_pos hjpos2]
  have hmem : (closes.getD (t + 1) 0 - closes.getD t 0)
      ∈ ((gain_st closes).drop (i + 1 - 14)).take 14 :=
    window_mem_of_getElem (by omega) (by omega) hval
  have hnonneg : ∀ x ∈ ((gain_st closes).drop (i + 1 - 14)).take 14, 0 ≤ x :=
    fun x hx =>
      gain_st_mem_nonneg closes x (List.mem_of_mem_drop (List.mem_of_mem_take hx))
  have hsumpos : 0 < (((gain_st closes).drop (i + 1 - 14)).take 14).sum :=
    lt_of_lt_of_le hjpos2 (List.single_le_sum hnonneg _ hmem)
  exact ⟨_, div_pos hsumpos (by norm_num), rfl⟩

lemma avg_gain_roll_zero (closes : List ℚ) (i : ℕ) (hi : i < closes.length)
    (hge : 13 ≤ i)
    (hd : ∀ j, 1 ≤ j → i ≤ j + 13 → j ≤ i →
      closes.getD j 0 - closes.getD (j - 1) 0 ≤ 0) :
    (avg_gain_roll 14 closes)[i]? = some (some 0) := by
  have hlen : i < (gain_st closes).length := by
    rw [gain_st_length]
    exact hi
  rw [avg_gain_roll, rollingMean_getElem 14 _ i hlen, if_pos (by omega)]
  have hsum : (((gain_st closes).drop (i + 1 - 14)).take 14).sum = 0 := by
    refine List.sum_eq_zero ?_
    intro x hx
    obtain ⟨j, hj1, hj2, hj⟩ := mem_window hx
    cases j with
    | zero =>
      have h0 : (gain_st closes)[0]? = some 0 :=
        gain_st_getElem_zero closes (by
          intro h
          subst h
          simp at hi)
      rw [h0] at hj
      exact (Option.some_injective _ hj).symm
    | succ t =>
      have hjlen : t + 1 < closes.length := by omega
      rw [gain_st_getElem_succ closes t hjlen] at hj
      obtain hx2 := Option.some_injective _ hj
      have hdj : closes.getD (t + 1) 0 - closes.getD t 0 ≤ 0 := by
        have := hd (t + 1) (by omega) (by omega) (by omega)
        simpa using this
      rw [if_neg (not_lt.2 hdj)] at hx2
      exact hx2.symm
  rw [hsum, zero_div]

lemma avg_loss_roll_pos (closes : List ℚ) (i : ℕ) (hi : i < closes.length)
    (hge : 13 ≤ i)
    (hex : ∃ j, 1 ≤ j ∧ i ≤ j + 13 ∧ j ≤ i ∧
      closes.getD j 0 - closes.getD (j - 1) 0 < 0) :
    ∃ l, 0 < l ∧ (avg_loss_roll 14 closes)[i]? = some (some l) := by
  have hlen : i < (loss_st closes).length := by
    rw [loss_st_length]
    exact hi
  rw [avg_loss_roll, rollingMean_getElem 14 _ i hlen, if_pos (by omega)]
  obtain ⟨j, hj1, hj2, hj3, hjneg⟩ := hex
  obtain ⟨t, rfl⟩ : ∃ t, j = t + 1 := ⟨j - 1, by omega⟩
  have hjlen : t + 1 < closes.length := by omega
  have hjneg2 : closes.getD (t + 1) 0 - closes.getD t 0 < 0 := by
    simpa using hjneg
  have hval : (loss_st closes)[t + 1]? =
      some (-(closes.getD (t + 1) 0 - closes.getD t 0)) := by
    rw [loss_st_getElem_succ closes t hjlen, if_pos hjneg2]
  have hmem : (-(closes.getD (t + 1) 0 - closes.getD t 0))
      ∈ ((loss_st closes).drop (i + 1 - 14)).take 14 :=
    window_mem_of_getElem (by omega) (by omega) hval
  have hnonneg : ∀ x ∈ ((loss_st closes).drop (i + 1 - 14)).take 14, 0 ≤ x :=
    fun x hx =>
      loss_st_mem_nonneg closes x (List.mem_of_mem_drop (List.mem_of_mem_take hx))
  have hsumpos : 0 < (((loss_st closes).drop (i + 1 - 14)).take 14).sum :=
    lt_of_lt_of_le (by linarith) (List.single_le_sum hnonneg _ hmem)
  exact ⟨_, div_pos hsumpos (by norm_num), rfl⟩

lemma avg_loss_ewm_zero (closes : List ℚ) (i : ℕ) (hi : i < closes.length)
    (h1i : 1 ≤ i)
    (hd : ∀ j, 1 ≤ j → j ≤ i → 0 ≤ closes.getD j 0 - closes.getD (j - 1) 0) :
    (avg_loss_ewm 14 closes)[i]? = some (some 0) := by
  have ha : (2 : ℚ) / ((14 : ℕ) + 1 : ℚ) = 2 / 15 := by norm_num
  have hlen : i < (loss_gd closes).length := by
    rw [loss_gd_length]
    exact hi
  rw [avg_loss_ewm, ha, ewmMean_getElem (2 / 15) _ i hlen]
  have hmem : ∀ o ∈ (loss_gd closes).take (i + 1), o = none ∨ o = some 0 := by
    intro o ho
    obtain ⟨t, hto⟩ := List.mem_iff_getElem?.1 ho
    have htlt : t < i + 1 := by
      obtain ⟨h, -⟩ := List.getElem?_eq_some_iff.1 hto
      have := List.length_take_le (i + 1) (loss_gd closes)
      omega
    rw [List.getElem?_take_of_lt htlt] at hto
    cases t with
    | zero =>
      rw [loss_gd_getElem_zero closes (by
        intro h
        subst h
        simp at hi)] at hto
      exact Or.inl (Option.some_injective _ hto).symm
    | succ u =>
      have hulen : u + 1 < closes.length := by omega
      rw [loss_gd_getElem_succ closes u hulen] at hto
      obtain ho2 := (Option.some_injective _ hto)
      have hdu : 0 ≤ closes.getD (u + 1) 0 - closes.getD u 0 := by
        have := hd (u + 1) (by omega) (by omega)
        simpa using this
      refine Or.inr ?_
      rw [← ho2, max_eq_right (by linarith)]
  have hnum : (ewmState (2 / 15) (0, 0) ((loss_gd closes).take (i + 1))).1 = 0 :=
    ewmState_num_zero (2 / 15) _ (0, 0) hmem rfl
  have hden : 0 < (ewmState (2 / 15) (0, 0) ((loss_gd closes).take (i + 1))).2 := by
    refine ewmState_den_pos_of_mem (2 / 15) (by norm_num) _ (0, 0) le_rfl ?_
    have h1len : 1 < closes.length := by omega
    have h1 := loss_gd_getElem_succ closes 0 h1len
    have htake : ((loss_gd closes).take (i + 1))[1]? = (loss_gd closes)[1]? :=
      List.getElem?_take_of_lt (by omega)
    exact ⟨_, List.getElem?_mem (htake.trans h1), rfl⟩
  rw [ewmOut, if_neg hden.ne', hnum, zero_div]

lemma avg_gain_ewm_pos (closes : List ℚ) (i : ℕ) (hi : i < closes.length)
    (hex : ∃ j, 1 ≤ j ∧ j ≤ i ∧
      0 < closes.getD j 0 - closes.getD (j - 1) 0) :
    ∃ g, 0 < g ∧ (avg_gain_ewm 14 closes)[i]? = some (some g) := by
  have ha : (2 : ℚ) / ((14 : ℕ) + 1 : ℚ) = 2 / 15 := by norm_num
  have hlen : i < (gain_gd closes).length := by
    rw [gain_gd_length]
    exact hi
  rw [avg_gain_ewm, ha, ewmMean_getElem (2 / 15) _ i hlen]
  obtain ⟨j, hj1, hj2, hjpos⟩ := hex
  obtain ⟨t, rfl⟩ : ∃ t, j = t + 1 := ⟨j - 1, by omega⟩
  have htlen : t + 1 < closes.length := by omega
  have hjpos2 : 0 < closes.getD (t + 1) 0 - closes.getD t 0 := by
    simpa using hjpos
  have hval := gain_gd_getElem_succ closes t htlen
  have hvpos : 0 < max (closes.getD (t + 1) 0 - closes.getD t 0) 0 :=
    lt_of_lt_of_le hjpos2 (le_max_left _ _)
  have htake : ((gain_gd closes).take (i + 1))[t + 1]? = (gain_gd closes)[t + 1]? :=
    List.getElem?_take_of_lt (by omega)
  have hmemnn : ∀ o ∈ (gain_gd closes).take (i + 1), ∀ x, o = some x → 0 ≤ x :=
    fun o ho x hx => gain_gd_mem_nonneg closes o (List.mem_of_mem_take ho) x hx
  have hnum : 0 < (ewmState (2 / 15) (0, 0) ((gain_gd closes).take (i + 1))).1 :=
    ewmState_num_pos_of_mem (2 / 15) (by norm_num) _ (0, 0) hmemnn le_rfl
      ⟨_, List.getElem?_mem (htake.trans hval), _, rfl, hvpos⟩
  have hden : 0 < (ewmState (2 / 15) (0, 0) ((gain_gd closes).take (i + 1))).2 :=
    ewmState_den_pos_of_mem (2 / 15) (by norm_num) _ (0, 0) le_rfl
      ⟨_, List.getElem?_mem (htake.trans hval), rfl⟩
  refine ⟨_, div_pos hnum hden, ?_⟩
  rw [ewmOut, if_neg hden.ne']

lemma avg_gain_ewm_zero (closes : List ℚ) (i : ℕ) (hi : i < closes.length)
    (h1i : 1 ≤ i)
    (hd : ∀ j, 1 ≤ j → j ≤ i → closes.getD j 0 - closes.getD (j - 1) 0 ≤ 0) :
    (avg_gain_ewm 14 closes)[i]? = some (some 0) := by
  have ha : (2 : ℚ) / ((14 : ℕ) + 1 : ℚ) = 2 / 15 := by norm_num
  have hlen : i < (gain_gd closes).length := by
    rw [gain_gd_length]
    exact hi
  rw [avg_gain_ewm, ha, ewmMean_getElem (2 / 15) _ i hlen]
  have hmem : ∀ o ∈ (gain_gd closes).take (i + 1), o = none ∨ o = some 0 := by
    intro o ho
    obtain ⟨t, hto⟩ := List.mem_iff_getElem?.1 ho
    have htlt : t < i + 1 := by
      obtain ⟨h, -⟩ := List.getElem?_eq_some_iff.1 hto
      have := List.length_take_le (i + 1) (gain_gd closes)
      omega
    rw [List.getElem?_take_of_lt htlt] at hto
    cases t with
    | zero =>
      rw [gain_gd_getElem_zero closes (by
        intro h
        subst h
        simp at hi)] at hto
      exact Or.inl (Option.some_injective _ hto).symm
    | succ u =>
      have hulen : u + 1 < closes.length := by omega
      rw [gain_gd_getElem_succ closes u hulen] at hto
      obtain ho2 := (Option.some_injective _ hto)
      have hdu : closes.getD (u + 1) 0 - closes.getD u 0 ≤ 0 := by
        have := hd (u + 1) (by omega) (by omega)
        simpa using this
      refine Or.inr ?_
      rw [← ho2, max_eq_right hdu]
  have hnum : (ewmState (2 / 15) (0, 0) ((gain_gd closes).take (i + 1))).1 = 0 :=
    ewmState_num_zero (2 / 15) _ (0, 0) hmem rfl
  have hden : 0 < (ewmState (2 / 15) (0, 0) ((gain_gd closes).take (i + 1))).2 := by
    refine ewmState_den_pos_of_mem (2 / 15) (by norm_num) _ (0, 0) le_rfl ?_
    have h1len : 1 < closes.length := by omega
    have h1 := gain_gd_getElem_succ closes 0 h1len
    have htake : ((gain_gd closes).take (i + 1))[1]? = (gain_gd closes)[1]? :=
      List.getElem?_take_of_lt (by omega)
    exact ⟨_, List.getElem?_mem (htake.trans h1), rfl⟩
  rw [ewmOut, if_neg hden.ne', hnum, zero_div]

lemma avg_loss_ewm_pos (closes : List ℚ) (i : ℕ) (hi : i < closes.length)
    (hex : ∃ j, 1 ≤ j ∧ j ≤ i ∧
      closes.getD j 0 - closes.getD (j - 1) 0 < 0) :
    ∃ l, 0 < l ∧ (avg_loss_ewm 14 closes)[i]? = some (some l) := by
  have ha : (2 : ℚ) / ((14 : ℕ) + 1 : ℚ) = 2 / 15 := by norm_num
  have hlen : i < (loss_gd closes).length := by
    rw [loss_gd_length]
    exact hi
  rw [avg_loss_ewm, ha, ewmMean_getElem (2 / 15) _ i hlen]
  obtain ⟨j, hj1, hj2, hjneg⟩ := hex
  obtain ⟨t, rfl⟩ : ∃ t, j = t + 1 := ⟨j - 1, by omega⟩
  have htlen : t + 1 < closes.length := by omega
  have hjneg2 : closes.getD (t + 1) 0 - closes.getD t 0 < 0 := by
    simpa using hjneg
  have hval := loss_gd_getElem_succ closes t htlen
  have hvpos : 0 < max (-(closes.getD (t + 1) 0 - closes.getD t 0)) 0 :=
    lt_of_lt_of_le (by linarith) (le_max_left _ _)
  have htake : ((loss_gd closes).take (i + 1))[t + 1]? = (loss_gd closes)[t + 1]? :=
    List.getElem?_take_of_lt (by omega)
  have hmemnn : ∀ o ∈ (loss_gd closes).take (i + 1), ∀ x, o = some x → 0 ≤ x :=
    fun o ho x hx => loss_gd_mem_nonneg closes o (List.mem_of_mem_take ho) x hx
  have hnum : 0 < (ewmState (2 / 15) (0, 0) ((loss_gd closes).take (i + 1))).1 :=
    ewmState_num_pos_of_mem (2 / 15) (by norm_num) _ (0, 0) hmemnn le_rfl
      ⟨_, List.getElem?_mem (htake.trans hval), _, rfl, hvpos⟩
  have hden : 0 < (ewmState (2 / 15) (0, 0) ((loss_gd closes).take (i + 1))).2 :=
    ewmState_den_pos_of_mem (2 / 15) (by norm_num) _ (0, 0) le_rfl
      ⟨_, List.getElem?_mem (htake.trans hval), rfl⟩
  refine ⟨_, div_pos hnum hden, ?_⟩
  rw [ewmOut, if_neg hden.ne']

/-- C2 counterexample: on the constant (hence monotonically non-decreasing)
series 10, 10 both averages are defined and zero at index 1, yet the RSI
there is NaN (rs = 0/0), not the claimed clamped 100. -/
theorem claim2_counterexample :
    (avg_gain_ewm 14 [10, 10])[1]? = some (some 0) ∧
    (avg_loss_ewm 14 [10, 10])[1]? = some (some 0) ∧
    (RSI_gd [10, 10])[1]? = some none ∧
    (RSI_gd [10, 10])[1]? ≠ some (some 100) := by
  have h3 : (RSI_gd [10, 10])[1]? = some none := by
    norm_num [RSI_gd, RSI_ewm, avg_gain_ewm, avg_loss_ewm, ewmMean, ewmAux,
      ewmStep, ewmOut, gain_gd, loss_gd, diffs, List.range_succ, rsiVal]
  refine ⟨?_, ?_, h3, by rw [h3]; simp⟩ <;>
    norm_num [avg_gain_ewm, avg_loss_ewm, ewmMean, ewmAux,
      ewmStep, ewmOut, gain_gd, loss_gd, diffs, List.range_succ]

/-- C2 (amended): wherever both averages are defined, avg_loss = 0 together
with avg_gain ≠ 0 forces RSI = 100 (when both are zero rs is 0/0 = NaN and
RSI is undefined); in particular a non-decreasing Close stretch with at
least one strict rise forces RSI = 100 — over the trailing lookback window
for the SIMPLE rule, and over the whole history up to the index for the
EXPONENTIAL rule, whose averages aggregate all past deltas. -/
theorem claim2_rsi_saturation (closes : List ℚ) :
    (∀ (r : Rule) (p : ℕ) (i : ℕ) (g l : ℚ),
      (avg_gain_rule r p closes)[i]? = some (some g) →
      (avg_loss_rule r p closes)[i]? = some (some l) → l = 0 → g ≠ 0 →
      (rsi_rule r p closes)[i]? = some (some 100)) ∧
    (∀ i, i < closes.length → 13 ≤ i →
      (∀ j, 1 ≤ j → i ≤ j + 13 → j ≤ i →
        closes.getD (j - 1) 0 ≤ closes.getD j 0) →
      (∃ j, 1 ≤ j ∧ i ≤ j + 13 ∧ j ≤ i ∧
        closes.getD (j - 1) 0 < closes.getD j 0) →
      (RSI_st closes)[i]? = some (some 100)) ∧
    (∀ i, i < closes.length →
      (∀ j, 1 ≤ j → j ≤ i → closes.getD (j - 1) 0 ≤ closes.getD j 0) →
      (∃ j, 1 ≤ j ∧ j ≤ i ∧ closes.getD (j - 1) 0 < closes.getD j 0) →
      (RSI_gd closes)[i]? = some (some 100)) := by
  refine ⟨?_, ?_, ?_⟩
  · intro r p i g l hg hl hl0 hg0
    subst hl0
    cases r with
    | SIMPLE =>
      simp only [avg_gain_rule] at hg
      simp only [avg_loss_rule] at hl
      simp only [rsi_rule, RSI_roll]
      rw [zipWith_getElem_some hg hl, rsiVal_pos_zero hg0]
    | EXPONENTIAL =>
      simp only [avg_gain_rule] at hg
      simp only [avg_loss_rule] at hl
      simp only [rsi_rule, RSI_ewm]
      rw [zipWith_getElem_some hg hl, rsiVal_pos_zero hg0]
  · intro i hi hge hmono hstrict
    have hloss := avg_loss_roll_zero closes i hi hge
      (fun j h1 h2 h3 => sub_nonneg.2 (hmono j h1 h2 h3))
    obtain ⟨j, hj1, hj2, hj3, hjlt⟩ := hstrict
    obtain ⟨g, hgpos, hg⟩ := avg_gain_roll_pos closes i hi hge
      ⟨j, hj1, hj2, hj3, sub_pos.2 hjlt⟩
    simp only [RSI_st, RSI_roll]
    rw [zipWith_getElem_some hg hloss, rsiVal_pos_zero hgpos.ne']
  · intro i hi hmono hstrict
    obtain ⟨j, hj1, hj2, hjlt⟩ := hstrict
    have h1i : 1 ≤ i := le_trans hj1 hj2
    have hloss := avg_loss_ewm_zero closes i hi h1i
      (fun j h1 h2 => sub_nonneg.2 (hmono j h1 h2))
    obtain ⟨g, hgpos, hg⟩ := avg_gain_ewm_pos closes i hi
      ⟨j, hj1, hj2, sub_pos.2 hjlt⟩
    simp only [RSI_gd, RSI_ewm]
    rw [zipWith_getElem_some hg hloss, rsiVal_pos_zero hgpos.ne']

/-- C2 witness: avg-level saturation on the two-bar rise 10, 12; the SIMPLE
windowed saturation at index 13 of the rising series 1..14; the EXPONENTIAL
whole-history saturation at index 1 of 10, 11. -/
theorem claim2_rsi_saturation_witness :
    (rsi_rule Rule.EXPONENTIAL 14 [10, 12])[1]? = some (some 100) ∧
    (RSI_st [1, 2, 3, 4, 5, 6, 7, 8, 9, 10, 11, 12, 13, 14])[13]?
      = some (some 100) ∧
    (RSI_gd [10, 11])[1]? = some (some 100) := by
  refine ⟨?_, ?_, ?_⟩
  · have hg : (avg_gain_rule Rule.EXPONENTIAL 14 [10, 12])[1]? = some (some 2) := by
      norm_num [avg_gain_rule, avg_gain_ewm, ewmMean, ewmAux, ewmStep, ewmOut,
        gain_gd, diffs, List.range_succ]
    have hl : (avg_loss_rule Rule.EXPONENTIAL 14 [10, 12])[1]? = some (some 0) := by
      norm_num [avg_loss_rule, avg_loss_ewm, ewmMean, ewmAux, ewmStep, ewmOut,
        loss_gd, diffs, List.range_succ]
    exact (claim2_rsi_saturation [10, 12]).1 Rule.EXPONENTIAL 14 1 2 0 hg hl rfl
      (by norm_num)
  · refine (claim2_rsi_saturation _).2.1 13 (by norm_num) (by norm_num) ?_ ?_
    · intro j h1 h2 h3
      interval_cases j <;> norm_num
    · exact ⟨1, by norm_num, by norm_num, by norm_num, by norm_num⟩
  · refine (claim2_rsi_saturation _).2.2 1 (by norm_num) ?_ ?_
    · intro j h1 h2
      interval_cases j
      norm_num
    · exact ⟨1, le_rfl, le_rfl, by norm_num⟩

/-- C8 counterexample: on the constant (hence monotonically non-increasing)
series 7, 7 the gain average is zero as claimed, but the RSI at index 1 is
NaN (rs = 0/0), not 0. -/
theorem claim8_counterexample :
    (avg_gain_ewm 14 [7, 7])[1]? = some (some 0) ∧
    (avg_loss_ewm 14 [7, 7])[1]? = some (some 0) ∧
    (RSI_gd [7, 7])[1]? = some none ∧
    (RSI_gd [7, 7])[1]? ≠ some (some 0) := by
  have h3 : (RSI_gd [7, 7])[1]? = some none := by
    norm_num [RSI_gd, RSI_ewm, avg_gain_ewm, avg_loss_ewm, ewmMean, ewmAux,
      ewmStep, ewmOut, gain_gd, loss_gd, diffs, List.range_succ, rsiVal]
  refine ⟨?_, ?_, h3, by rw [h3]; simp⟩ <;>
    norm_num [avg_gain_ewm, avg_loss_ewm, ewmMean, ewmAux,
      ewmStep, ewmOut, gain_gd, loss_gd, diffs, List.range_succ]

/-- C8 (amended): wherever both averages are defined, avg_gain = 0 together
with avg_loss ≠ 0 forces RSI = 0 (when both are zero RSI is undefined); in
particular a non-increasing Close stretch with at least one strict fall
forces RSI = 0 — over the trailing lookback window for the SIMPLE rule and
over the whole history up to the index for the EXPONENTIAL rule. -/
theorem claim8_rsi_floor (closes : List ℚ) :
    (∀ (r : Rule) (p : ℕ) (i : ℕ) (g l : ℚ),
      (avg_gain_rule r p closes)[i]? = some (some g) →
      (avg_loss_rule r p closes)[i]? = some (some l) → g = 0 → l ≠ 0 →
      (rsi_rule r p closes)[i]? = some (some 0)) ∧
    (∀ i, i < closes.length → 13 ≤ i →
      (∀ j, 1 ≤ j → i ≤ j + 13 → j ≤ i →
        closes.getD j 0 ≤ closes.getD (j - 1) 0) →
      (∃ j, 1 ≤ j ∧ i ≤ j + 13 ∧ j ≤ i ∧
        closes.getD j 0 < closes.getD (j - 1) 0) →
      (RSI_st closes)[i]? = some (some 0)) ∧
    (∀ i, i < closes.length →
      (∀ j, 1 ≤ j → j ≤ i → closes.getD j 0 ≤ closes.getD (j - 1) 0) →
      (∃ j, 1 ≤ j ∧ j ≤ i ∧ closes.getD j 0 < closes.getD (j - 1) 0) →
      (RSI_gd closes)[i]? = some (some 0)) := by
  refine ⟨?_, ?_, ?_⟩
  · intro r p i g l hg hl hg0 hl0
    subst hg0
    cases r with
    | SIMPLE =>
      simp only [avg_gain_rule] at hg
      simp only [avg_loss_rule] at hl
      simp only [rsi_rule, RSI_roll]
      rw [zipWith_getElem_some hg hl, rsiVal_zero_ne hl0]
    | EXPONENTIAL =>
      simp only [avg_gain_rule] at hg
      simp only [avg_loss_rule] at hl
      simp only [rsi_rule, RSI_ewm]
      rw [zipWith_getElem_some hg hl, rsiVal_zero_ne hl0]
  · intro i hi hge hmono hstrict
    have hgain := avg_gain_roll_zero closes i hi hge
      (fun j h1 h2 h3 => sub_nonpos.2 (hmono j h1 h2 h3))
    obtain ⟨j, hj1, hj2, hj3, hjlt⟩ := hstrict
    obtain ⟨l, hlpos, hl⟩ := avg_loss_roll_pos closes i hi hge
      ⟨j, hj1, hj2, hj3, sub_neg.2 hjlt⟩
    simp only [RSI_st, RSI_roll]
    rw [zipWith_getElem_some hgain hl, rsiVal_zero_ne hlpos.ne']
  · intro i hi hmono hstrict
    obtain ⟨j, hj1, hj2, hjlt⟩ := hstrict
    have h1i : 1 ≤ i := le_trans hj1 hj2
    have hgain := avg_gain_ewm_zero closes i hi h1i
      (fun j h1 h2 => sub_nonpos.2 (hmono j h1 h2))
    obtain ⟨l, hlpos, hl⟩ := avg_loss_ewm_pos closes i hi
      ⟨j, hj1, hj2, sub_neg.2 hjlt⟩
    simp only [RSI_gd, RSI_ewm]
    rw [zipWith_getElem_some hgain hl, rsiVal_zero_ne hlpos.ne']

/-- C8 witness: avg-level floor on the two-bar fall 12, 10; the SIMPLE
windowed floor at index 13 of the falling series 14..1; the EXPONENTIAL
whole-history floor at index 1 of 11, 10. -/
theorem claim8_rsi_floor_witness :
    (rsi_rule Rule.EXPONENTIAL 14 [12, 10])[1]? = some (some 0) ∧
    (RSI_st [14, 13, 12, 11, 10, 9, 8, 7, 6, 5, 4, 3, 2, 1])[13]?
      = some (some 0) ∧
    (RSI_gd [11, 10])[1]? = some (some 0) := by
  refine ⟨?_, ?_, ?_⟩
  · have hg : (avg_gain_rule Rule.EXPONENTIAL 14 [12, 10])[1]? = some (some 0) := by
      norm_num [avg_gain_rule, avg_gain_ewm, ewmMean, ewmAux, ewmStep, ewmOut,
        gain_gd, diffs, List.range_succ]
    have hl : (avg_loss_rule Rule.EXPONENTIAL 14 [12, 10])[1]? = some (some 2) := by
      norm_num [avg_loss_rule, avg_loss_ewm, ewmMean, ewmAux, ewmStep, ewmOut,
        loss_gd, diffs, List.range_succ]
    exact (claim8_rsi_floor [12, 10]).1 Rule.EXPONENTIAL 14 1 0 2 hg hl rfl
      (by norm_num)
  · refine (claim8_rsi_floor _).2.1 13 (by norm_num) (by norm_num) ?_ ?_
    · intro j h1 h2 h3
      interval_cases j <;> norm_num
    · exact ⟨1, by norm_num, by norm_num, by norm_num, by norm_num⟩
  · refine (claim8_rsi_floor _).2.2 1 (by norm_num) ?_ ?_
    · intro j h1 h2
      interval_cases j
      norm_num
    · exact ⟨1, le_rfl, le_rfl, by norm_num⟩
